import Mathlib

/- Verification of the query-result acquisition engine of the pylon-custom-app
   repository: the fragment splitter, result classifier, job pollers, dispatch
   logic and decoding step of src/omni_client.py (OmniClient.run_query,
   OmniClient._poll_job) and src/main.py (get_omni_query_results,
   poll_omni_job), shallowly embedded as pure Lean functions. -/

/- JSON values as produced by json.loads: dicts, lists, strings, numbers,
   booleans and null.  Strings are lists of characters; parsed top-level
   fragments are dicts, modelled as association lists with unique keys
   (json.loads output has unique keys, later duplicates overwrite earlier). -/
inductive JVal where
  | jnull
  | jbool (b : Bool)
  | jnum (n : Int)
  | jstr (s : List Char)
  | jarr (xs : List JVal)
  | jobj (fs : List (List Char × JVal))

/- A parsed response fragment: one JSON object (Python dict). -/
abbrev Frag := List (List Char × JVal)

/- Python exceptions raised by the engine.  timeoutError carries the job ids
   and the timeout value interpolated into the TimeoutError message
   "Jobs ... did not complete within ... seconds". -/
inductive PyErr where
  | attributeError
  | typeError
  | binasciiError
  | arrowInvalid
  | fuelExhausted
  | timeoutError (jobIds : List JVal) (timeoutVal : Nat)
  | exception (msg : List Char)

/- dict lookup: Python d[k] / d.get(k).  For unique-key dicts the first match
   is the binding. -/
def lookup_key (f : Frag) (k : List Char) : Option JVal :=
  match f.find? (fun p => p.1 == k) with
  | some p => some p.2
  | none => none

/- Python d.get(k, default): the stored value when the key is present (even
   when that value is None), the default otherwise. -/
def lookup_d (f : Frag) (k : List Char) (d : JVal) : JVal :=
  (lookup_key f k).getD d

def kRESULT : List Char := ("result").toList

def kJOBIDS : List Char := ("remaining_job_ids").toList

def kTIMEOUT : List Char := ("timeout").toList

/- The magic marker prefixing an inline encoded result. -/
def MAGIC : List Char := ['/', '/', '/', '/', '/']

/- Fragment splitter of OmniClient.run_query (src/omni_client.py lines 38-49)
   and get_omni_query_results (src/main.py lines 476-488): scan the body,
   maintain a brace-depth counter (a Python int, hence Int here), record the
   start index on a 0 to 1 transition, and on a transition back to 0 emit
   text[start : i+1]. -/
def split_json_aux (text : List Char) :
    List Char → Nat → Int → Nat → List (List Char) → List (List Char)
  | [], _, _, _, acc => acc
  | c :: rest, i, depth, start, acc =>
    if c = '{' then
      split_json_aux text rest (i + 1) (depth + 1) (if depth = 0 then i else start) acc
    else if c = '}' then
      if depth - 1 = 0 then
        split_json_aux text rest (i + 1) (depth - 1) start
          (acc ++ [(text.drop start).take (i + 1 - start)])
      else
        split_json_aux text rest (i + 1) (depth - 1) start acc
    else
      split_json_aux text rest (i + 1) depth start acc

def split_json_objects (text : List Char) : List (List Char) :=
  split_json_aux text text 0 0 0 []

/- Net brace count of a character sequence: +1 per opening, -1 per closing
   brace. -/
def brace_delta : List Char → Int
  | [] => 0
  | c :: t => (if c = '{' then (1 : Int) else if c = '}' then -1 else 0) + brace_delta t

/- Text containing no brace character (whitespace or stray non-brace text
   between fragments). -/
def no_brace (l : List Char) : Prop := ∀ c ∈ l, c ≠ '{' ∧ c ≠ '}'

instance : DecidablePred no_brace := fun l =>
  List.decidableBAll (fun c => c ≠ '{' ∧ c ≠ '}') l

/- A brace-balanced top-level JSON object as the splitter sees one: starts
   with an opening brace, net brace count zero, and every nonempty proper
   character-level prefix has positive net count (the matching closing brace
   is the last character).  Since the scanner is not string-aware this is the
   right notion for object text without braces inside string literals. -/
def is_json_object (s : List Char) : Prop :=
  s.head? = some '{' ∧ brace_delta s = 0 ∧
    ∀ p ∈ s.inits, p ≠ [] → p ≠ s → 0 < brace_delta p

instance : DecidablePred is_json_object := fun s => by
  unfold is_json_object; infer_instance

lemma brace_delta_cons (c : Char) (t : List Char) :
    brace_delta (c :: t)
      = (if c = '{' then (1 : Int) else if c = '}' then -1 else 0) + brace_delta t := rfl

lemma split_skip_no_brace (text : List Char) :
    ∀ (f : List Char), no_brace f → ∀ rest i start acc,
      split_json_aux text (f ++ rest) i 0 start acc
        = split_json_aux text rest (i + f.length) 0 start acc := by
  intro f
  induction f with
  | nil => intro _ rest i start acc; simp
  | cons c f ih =>
    intro hf rest i start acc
    have hc := hf c (List.mem_cons_self c f)
    have hf' : no_brace f := fun x hx => hf x (List.mem_cons_of_mem c hx)
    rw [List.cons_append]
    show split_json_aux text (c :: (f ++ rest)) i 0 start acc = _
    rw [split_json_aux]
    rw [if_neg hc.1, if_neg hc.2]
    rw [ih hf' rest (i + 1) start acc]
    have harith : i + 1 + f.length = i + (c :: f).length := by
      simp [List.length_cons]; omega
    rw [harith]


lemma split_obj_inner (text : List Char) :
    ∀ (u rest : List Char) (i : Nat) (d : Int) (start : Nat) (acc : List (List Char)),
      1 ≤ d → brace_delta u = -d →
      (∀ p, p <+: u → p ≠ u → -d < brace_delta p) →
      split_json_aux text (u ++ rest) i d start acc
        = split_json_aux text rest (i + u.length) 0 start
            (acc ++ [(text.drop start).take (i + u.length - start)]) := by
  intro u
  induction u with
  | nil =>
    intro rest i d start acc hd hΔ _
    exfalso
    simp [brace_delta] at hΔ
    omega
  | cons c u ih =>
    intro rest i d start acc hd hΔ hpre
    rw [List.cons_append]
    by_cases hco : c = '{'
    · subst hco
      rw [split_json_aux, if_pos rfl]
      have hd0 : ¬ (d = 0) := by omega
      rw [if_neg hd0]
      have hΔ' : brace_delta u = -(d + 1) := by
        rw [brace_delta_cons] at hΔ
        simp at hΔ
        omega
      have hpre' : ∀ p, p <+: u → p ≠ u → -(d + 1) < brace_delta p := by
        intro p hp hne
        obtain ⟨t, ht⟩ := hp
        have h1 : ('{' :: p) <+: ('{' :: u) := ⟨t, by rw [List.cons_append, ht]⟩
        have h2 : ('{' :: p) ≠ ('{' :: u) := by
          intro h
          injection h with _ h2
          exact hne h2
        have h3 := hpre ('{' :: p) h1 h2
        rw [brace_delta_cons] at h3
        simp at h3
        omega
      rw [ih rest (i + 1) (d + 1) start acc (by omega) hΔ' hpre']
      have harith : i + ('{' :: u).length = i + 1 + u.length := by
        simp [List.length_cons]
        omega
      rw [harith]
    · by_cases hcc : c = '}'
      · subst hcc
        by_cases hd1 : d = 1
        · subst hd1
          have hu : u = [] := by
            by_contra hne
            have h1 : ['}'] <+: ('}' :: u) := ⟨u, rfl⟩
            have h2 : ['}'] ≠ ('}' :: u) := by
              intro h
              injection h with _ h2
              exact hne h2.symm
            have h3 := hpre ['}'] h1 h2
            simp [brace_delta] at h3
          subst hu
          rw [split_json_aux, if_neg hco, if_pos rfl]
          rw [if_pos (by norm_num)]
          have h10 : (1 : Int) - 1 = 0 := by norm_num
          rw [h10]
          have harith : i + (['}'] : List Char).length = i + 1 := by simp
          rw [harith, List.nil_append]
        · rw [split_json_aux, if_neg hco, if_pos rfl]
          rw [if_neg (by omega)]
          have hΔ' : brace_delta u = -(d - 1) := by
            rw [brace_delta_cons] at hΔ
            simp [hco] at hΔ
            omega
          have hpre' : ∀ p, p <+: u → p ≠ u → -(d - 1) < brace_delta p := by
            intro p hp hne
            obtain ⟨t, ht⟩ := hp
            have h1 : ('}' :: p) <+: ('}' :: u) := ⟨t, by rw [List.cons_append, ht]⟩
            have h2 : ('}' :: p) ≠ ('}' :: u) := by
              intro h
              injection h with _ h2
              exact hne h2
            have h3 := hpre ('}' :: p) h1 h2
            rw [brace_delta_cons] at h3
            simp [hco] at h3
            omega
          rw [ih rest (i + 1) (d - 1) start acc (by omega) hΔ' hpre']
          have harith : i + ('}' :: u).length = i + 1 + u.length := by
            simp [List.length_cons]
            omega
          rw [harith]
      · rw [split_json_aux, if_neg hco, if_neg hcc]
        have hΔ' : brace_delta u = -d := by
          rw [brace_delta_cons] at hΔ
          simp [hco, hcc] at hΔ
          omega
        have hpre' : ∀ p, p <+: u → p ≠ u → -d < brace_delta p := by
          intro p hp hne
          obtain ⟨t, ht⟩ := hp
          have h1 : (c :: p) <+: (c :: u) := ⟨t, by rw [List.cons_append, ht]⟩
          have h2 : (c :: p) ≠ (c :: u) := by
            intro h
            injection h with _ h2
            exact hne h2
          have h3 := hpre (c :: p) h1 h2
          rw [brace_delta_cons] at h3
          simp [hco, hcc] at h3
          omega
        rw [ih rest (i + 1) d start acc hd hΔ' hpre']
        have harith : i + (c :: u).length = i + 1 + u.length := by
          simp [List.length_cons]
          omega
        rw [harith]


lemma take_len_append {α : Type} : ∀ (a b : List α), (a ++ b).take a.length = a := by
  intro a b
  induction a with
  | nil => simp
  | cons x a ih => simp [ih]

lemma drop_len_append {α : Type} : ∀ (a b : List α), (a ++ b).drop a.length = b := by
  intro a b
  induction a with
  | nil => simp
  | cons x a ih => simp [ih]

lemma split_obj (text : List Char) (s : List Char) (hs : is_json_object s) :
    ∀ rest i start acc,
      split_json_aux text (s ++ rest) i 0 start acc
        = split_json_aux text rest (i + s.length) 0 i
            (acc ++ [(text.drop i).take s.length]) := by
  obtain ⟨hhead, hΔ, hpre⟩ := hs
  cases s with
  | nil => simp at hhead
  | cons c u =>
    have hc : c = '{' := by simpa using hhead
    subst hc
    intro rest i start acc
    rw [List.cons_append, split_json_aux, if_pos rfl, if_pos rfl, zero_add]
    have hΔ' : brace_delta u = -1 := by
      rw [brace_delta_cons] at hΔ
      simp at hΔ
      omega
    have hpre' : ∀ p, p <+: u → p ≠ u → -1 < brace_delta p := by
      intro p hp hne
      obtain ⟨t, ht⟩ := hp
      have h1 : ('{' :: p) ∈ ('{' :: u).inits := by
        rw [List.mem_inits]
        exact ⟨t, by rw [List.cons_append, ht]⟩
      have h2 : ('{' :: p) ≠ ('{' :: u) := by
        intro h
        injection h with _ h2
        exact hne h2
      have h3 := hpre ('{' :: p) h1 (by simp) h2
      rw [brace_delta_cons] at h3
      simp at h3
      omega
    rw [split_obj_inner text u rest (i + 1) 1 i acc (by norm_num) hΔ' hpre']
    have h2 : i + 1 + u.length - i = ('{' :: u).length := by
      simp [List.length_cons]
      omega
    have h1 : i + 1 + u.length = i + ('{' :: u).length := by
      simp [List.length_cons]
      omega
    rw [h2, h1]

lemma split_body (text : List Char) :
    ∀ (ps : List (List Char × List Char)) (f0 : List Char) (i start : Nat)
      (acc : List (List Char)),
      no_brace f0 → (∀ p ∈ ps, is_json_object p.1 ∧ no_brace p.2) →
      text.drop i = f0 ++ (ps.map fun p => p.1 ++ p.2).flatten →
      split_json_aux text (f0 ++ (ps.map fun p => p.1 ++ p.2).flatten) i 0 start acc
        = acc ++ ps.map Prod.fst := by
  intro ps
  induction ps with
  | nil =>
    intro f0 i start acc h0 _ _
    rw [List.map_nil, List.flatten_nil,
      split_skip_no_brace text f0 h0 [] i start acc]
    simp [split_json_aux]
  | cons q ps ih =>
    intro f0 i start acc h0 hps hdrop
    obtain ⟨s, f⟩ := q
    have hobj : is_json_object s := (hps (s, f) (List.mem_cons_self (s, f) ps)).1
    have hfnb : no_brace f := (hps (s, f) (List.mem_cons_self (s, f) ps)).2
    have hps' : ∀ p ∈ ps, is_json_object p.1 ∧ no_brace p.2 := fun p hp =>
      hps p (List.mem_cons_of_mem (s, f) hp)
    rw [List.map_cons, List.flatten_cons] at hdrop ⊢
    dsimp only at hdrop ⊢
    rw [split_skip_no_brace text f0 h0 _ i start acc]
    rw [List.append_assoc s f _]
    rw [split_obj text s hobj _ (i + f0.length) start acc]
    have hdropj : text.drop (i + f0.length)
        = s ++ (f ++ (ps.map fun p => p.1 ++ p.2).flatten) := by
      rw [← List.drop_drop, hdrop, drop_len_append, List.append_assoc]
    have hslice : (text.drop (i + f0.length)).take s.length = s := by
      rw [hdropj, take_len_append]
    rw [hslice]
    have hdrop2 : text.drop (i + f0.length + s.length)
        = f ++ (ps.map fun p => p.1 ++ p.2).flatten := by
      rw [← List.drop_drop, hdropj, drop_len_append]
    rw [ih f (i + f0.length + s.length) (i + f0.length) (acc ++ [s]) hfnb hps' hdrop2]
    simp

/-- C1: for every response body that is the concatenation of brace-balanced
top-level JSON objects (with no brace inside a string literal), interleaved
with arbitrary brace-free filler text, the splitter of
OmniClient.run_query / get_omni_query_results returns exactly one fragment
per object, in order of appearance, each equal to the object substring from
its opening brace through its matching closing brace; with zero objects
(an empty or whitespace-only body) it returns zero fragments. -/
theorem c1_splitter_exact (f0 : List Char) (ps : List (List Char × List Char))
    (h0 : no_brace f0) (hps : ∀ p ∈ ps, is_json_object p.1 ∧ no_brace p.2) :
    split_json_objects (f0 ++ (ps.map fun p => p.1 ++ p.2).flatten) = ps.map Prod.fst := by
  unfold split_json_objects
  exact split_body _ ps f0 0 0 [] h0 hps (by rw [List.drop_zero])

/-- C1 witness: a concrete body with leading whitespace, two objects (the
second with a nested object) and stray non-brace filler splits into exactly
the two object substrings. -/
theorem c1_splitter_exact_witness :
    split_json_objects ((" ").toList
        ++ ([((("\x7b\"a\":1\x7d").toList), (" x").toList),
             ((("\x7b\"b\":\x7b\x7d\x7d").toList), [])].map fun p => p.1 ++ p.2).flatten)
      = [("\x7b\"a\":1\x7d").toList, ("\x7b\"b\":\x7b\x7d\x7d").toList] :=
  c1_splitter_exact ((" ").toList)
    [((("\x7b\"a\":1\x7d").toList), (" x").toList), ((("\x7b\"b\":\x7b\x7d\x7d").toList), [])]
    (by decide) (by decide)

/- Base64 alphabet value of a character (RFC 4648 standard alphabet, the one
   used by Python base64.b64decode). -/
def b64_char_val (c : Char) : Option Nat :=
  if 'A' ≤ c ∧ c ≤ 'Z' then some (c.toNat - 65)
  else if 'a' ≤ c ∧ c ≤ 'z' then some (c.toNat - 97 + 26)
  else if '0' ≤ c ∧ c ≤ '9' then some (c.toNat - 48 + 52)
  else if c = '+' then some 62
  else if c = '/' then some 63
  else none

def b64_keep (c : Char) : Bool := (b64_char_val c).isSome || c = '='

/- Quad-wise base64 decoding as binascii.a2b_base64 performs it after
   non-alphabet characters are discarded: full quads yield three bytes,
   a quad padded with one or two '=' yields two bytes or one byte, and any
   leftover of fewer than four characters or misplaced padding raises
   binascii.Error (incorrect padding). -/
def b64_quads : List Char → Except PyErr (List Nat)
  | [] => .ok []
  | a :: b :: c :: d :: rest =>
    match b64_char_val a, b64_char_val b with
    | some va, some vb =>
      if c = '=' then
        if d = '=' then
          match b64_quads rest with
          | .ok bs => .ok ((va * 4 + vb / 16) :: bs)
          | .error e => .error e
        else .error PyErr.binasciiError
      else
        match b64_char_val c with
        | some vc =>
          if d = '=' then
            match b64_quads rest with
            | .ok bs => .ok ((va * 4 + vb / 16) :: ((vb % 16) * 16 + vc / 4) :: bs)
            | .error e => .error e
          else
            match b64_char_val d with
            | some vd =>
              match b64_quads rest with
              | .ok bs => .ok ((va * 4 + vb / 16) :: ((vb % 16) * 16 + vc / 4)
                  :: ((vc % 4) * 64 + vd) :: bs)
              | .error e => .error e
            | none => .error PyErr.binasciiError
        | none => .error PyErr.binasciiError
    | _, _ => .error PyErr.binasciiError
  | _ => .error PyErr.binasciiError

/- Python base64.b64decode(s) with validate=False: characters outside the
   alphabet and padding are discarded, the rest is decoded quad-wise. -/
def b64decode (s : List Char) : Except PyErr (List Nat) :=
  b64_quads (s.filter b64_keep)

/- Python truthiness of a JSON value (bool(x) for the types json.loads can
   produce). -/
def py_truthy : JVal → Bool
  | JVal.jnull => false
  | JVal.jbool b => b
  | JVal.jnum n => n != 0
  | JVal.jstr s => !s.isEmpty
  | JVal.jarr xs => !xs.isEmpty
  | JVal.jobj fs => !fs.isEmpty

/- Python job_ids.extend(v): a list extends element-wise, a string extends
   with its one-character strings, anything else raises TypeError
   (not iterable). -/
def py_extend (acc : List JVal) : JVal → Except PyErr (List JVal)
  | JVal.jarr xs => .ok (acc ++ xs)
  | JVal.jstr s => .ok (acc ++ s.map fun c => JVal.jstr [c])
  | _ => .error PyErr.typeError

/- The value obj.get("result", "") of a fragment. -/
def frag_result_val (f : Frag) : JVal := lookup_d f kRESULT (JVal.jstr [])

/- A fragment the classifier passes over on the result check without raising:
   its result value (or the "" default) is a string that does not start with
   the magic marker. -/
def frag_skippable (f : Frag) : Bool :=
  match frag_result_val f with
  | JVal.jstr s => !(MAGIC.isPrefixOf s)
  | _ => false

/- A fragment whose remaining_job_ids field, if present, is a JSON list. -/
def frag_jobs_arr (f : Frag) : Bool :=
  match lookup_key f kJOBIDS with
  | none => true
  | some (JVal.jarr _) => true
  | some _ => false

/- All job identifiers contributed by the remaining_job_ids lists of a
   sequence of fragments, in order of appearance. -/
def collect_job_ids (frags : List Frag) : List JVal :=
  (frags.map fun f =>
    match lookup_key f kJOBIDS with
    | some (JVal.jarr xs) => xs
    | _ => []).flatten

/- Result classifier of OmniClient.run_query (src/omni_client.py lines 51-57)
   and get_omni_query_results (src/main.py lines 493-501): scan parsed
   fragments in order; if obj.get("result", "").startswith("/////") then
   base64-decode that result and stop; otherwise if "remaining_job_ids" is a
   key, job_ids.extend(...) and continue; otherwise continue.  A non-string
   result value raises AttributeError (startswith on a non-str), and a
   non-iterable remaining_job_ids value raises TypeError, exactly as the
   Python does. -/
def classify_fragments : List Frag → List JVal → Except PyErr (Option (List Nat) × List JVal)
  | [], ids => .ok (none, ids)
  | f :: rest, ids =>
    match frag_result_val f with
    | JVal.jstr s =>
      if MAGIC.isPrefixOf s then
        match b64decode s with
        | .error e => .error e
        | .ok bs => .ok (some bs, ids)
      else
        match lookup_key f kJOBIDS with
        | some v =>
          match py_extend ids v with
          | .error e => .error e
          | .ok ids2 => classify_fragments rest ids2
        | none => classify_fragments rest ids
    | _ => .error PyErr.attributeError

lemma b64_quads_magic_quad (r : List Char) :
    b64_quads ('/' :: '/' :: '/' :: '/' :: r)
      = match b64_quads r with
        | .ok bs => .ok (255 :: 255 :: 255 :: bs)
        | .error e => .error e := by
  have hv : b64_char_val '/' = some 63 := by decide
  rw [b64_quads, hv]
  have h1 : ¬ (('/' : Char) = '=') := by decide
  simp only [if_neg h1]

lemma b64decode_magic_head (s : List Char) (bs : List Nat)
    (hm : MAGIC.isPrefixOf s = true) (hd : b64decode s = .ok bs) :
    ∃ t, bs = 255 :: 255 :: 255 :: t := by
  have hm' : MAGIC <+: s := List.isPrefixOf_iff_prefix.mp hm
  obtain ⟨t0, ht⟩ := hm'
  subst ht
  unfold b64decode at hd
  rw [List.filter_append] at hd
  have hMf : MAGIC.filter b64_keep = MAGIC := by decide
  rw [hMf] at hd
  have hshape : MAGIC ++ t0.filter b64_keep
      = '/' :: '/' :: '/' :: '/' :: ('/' :: t0.filter b64_keep) := rfl
  rw [hshape, b64_quads_magic_quad] at hd
  cases hq : b64_quads ('/' :: t0.filter b64_keep) with
  | ok bs2 =>
    rw [hq] at hd
    simp at hd
    exact ⟨bs2, hd.symm⟩
  | error e =>
    rw [hq] at hd
    simp at hd

lemma collect_job_ids_cons (f : Frag) (l : List Frag) :
    collect_job_ids (f :: l)
      = (match lookup_key f kJOBIDS with
         | some (JVal.jarr xs) => xs
         | _ => []) ++ collect_job_ids l := rfl

lemma collect_job_ids_append (a b : List Frag) :
    collect_job_ids (a ++ b) = collect_job_ids a ++ collect_job_ids b := by
  unfold collect_job_ids
  rw [List.map_append, List.flatten_append]

lemma classify_skip_collect :
    ∀ (pre : List Frag), (∀ f ∈ pre, frag_skippable f = true ∧ frag_jobs_arr f = true) →
      ∀ (rest : List Frag) (ids : List JVal),
        classify_fragments (pre ++ rest) ids
          = classify_fragments rest (ids ++ collect_job_ids pre) := by
  intro pre
  induction pre with
  | nil =>
    intro _ rest ids
    simp [collect_job_ids]
  | cons f pre ih =>
    intro hpre rest ids
    have hf := hpre f (List.mem_cons_self f pre)
    have hpre' : ∀ g ∈ pre, frag_skippable g = true ∧ frag_jobs_arr g = true :=
      fun g hg => hpre g (List.mem_cons_of_mem f hg)
    rw [List.cons_append, classify_fragments]
    cases hval : frag_result_val f with
    | jstr s =>
      have hns : MAGIC.isPrefixOf s = false := by
        have hsk := hf.1
        rw [frag_skippable, hval] at hsk
        simpa using hsk
      dsimp only
      rw [hns]
      simp only [Bool.false_eq_true, if_false]
      cases hjv : lookup_key f kJOBIDS with
      | none =>
        rw [ih hpre' rest ids, collect_job_ids_cons, hjv]
        simp
      | some v =>
        have hja := hf.2
        rw [frag_jobs_arr, hjv] at hja
        cases v with
        | jarr xs =>
          show classify_fragments (pre ++ rest) (ids ++ xs) = _
          rw [ih hpre' rest (ids ++ xs), collect_job_ids_cons, hjv, List.append_assoc]
        | jnull => simp at hja
        | jbool b => simp at hja
        | jnum n => simp at hja
        | jstr s2 => simp at hja
        | jobj fs => simp at hja
    | jnull => rw [frag_skippable, hval] at hf; simp at hf
    | jbool b => rw [frag_skippable, hval] at hf; simp at hf
    | jnum n => rw [frag_skippable, hval] at hf; simp at hf
    | jarr xs => rw [frag_skippable, hval] at hf; simp at hf
    | jobj fs => rw [frag_skippable, hval] at hf; simp at hf

/-- C7: while scanning the fragments of one response, before any inline
result, every remaining_job_ids list is appended to the job accumulator in
order of appearance (the final accumulator is the initial one followed by
the concatenation of all contributed lists), the same holds after every
scan step (take k), and the accumulator only ever grows: the state after k
steps is a prefix of the state after k+1 steps.  Nothing is ever removed. -/
theorem c7_jobset_monotone (frags : List Frag) (ids : List JVal)
    (h : ∀ f ∈ frags, frag_skippable f = true ∧ frag_jobs_arr f = true) :
    classify_fragments frags ids = .ok (none, ids ++ collect_job_ids frags)
    ∧ (∀ k, classify_fragments (frags.take k) ids
        = .ok (none, ids ++ collect_job_ids (frags.take k)))
    ∧ (∀ k, (ids ++ collect_job_ids (frags.take k))
        <+: (ids ++ collect_job_ids (frags.take (k + 1)))) := by
  have main : ∀ (l : List Frag), (∀ f ∈ l, frag_skippable f = true ∧ frag_jobs_arr f = true) →
      classify_fragments l ids = .ok (none, ids ++ collect_job_ids l) := by
    intro l hl
    have := classify_skip_collect l hl [] ids
    rw [List.append_nil] at this
    rw [this]
    rfl
  refine ⟨main frags h, fun k => main (frags.take k)
    (fun f hf => h f (List.take_subset k frags hf)), fun k => ?_⟩
  rw [List.take_succ, collect_job_ids_append, ← List.append_assoc]
  exact ⟨collect_job_ids (frags[k]?.toList), rfl⟩

def c7_frags_example : List Frag :=
  [[(kJOBIDS, JVal.jarr [JVal.jstr (("a").toList)])],
   [(kJOBIDS, JVal.jarr [JVal.jstr (("b").toList)])]]

/-- C7 witness: two concrete fragments each contributing one job id; the
final accumulator is their concatenation and the state after one step is a
prefix of the state after two. -/
theorem c7_jobset_monotone_witness :
    classify_fragments c7_frags_example []
        = .ok (none, [] ++ collect_job_ids c7_frags_example)
    ∧ ([] ++ collect_job_ids (c7_frags_example.take 1))
        <+: ([] ++ collect_job_ids (c7_frags_example.take 2)) := by
  have h := c7_jobset_monotone c7_frags_example [] (by decide)
  exact ⟨h.1, h.2.2 1⟩

/-- C5 counterexample: a fragment whose result field is null is not skipped;
classification raises AttributeError (None.startswith does not exist), so
the claim that such fragments are skipped without error is false on the
code. -/
theorem c5_nonstring_result_raises :
    classify_fragments [[(kRESULT, JVal.jnull)]] [] = .error PyErr.attributeError := rfl

/-- C5 (amended): a fragment with no magic string result (its result value,
or the defaulted empty string, is a non-magic string) and no
remaining_job_ids field is skipped without error and scanning continues
with the next fragment; but a fragment whose result field holds a
non-string value (null, a number, a list, an object or a boolean) makes
classification raise AttributeError instead of being skipped. -/
theorem c5_skip_amended :
    (∀ (f : Frag) (rest : List Frag) (ids : List JVal),
        frag_skippable f = true → lookup_key f kJOBIDS = none →
        classify_fragments (f :: rest) ids = classify_fragments rest ids)
    ∧ (∀ (f : Frag) (rest : List Frag) (ids : List JVal),
        (∀ s, frag_result_val f ≠ JVal.jstr s) →
        classify_fragments (f :: rest) ids = .error PyErr.attributeError) := by
  constructor
  · intro f rest ids hsk hjn
    have hja : frag_jobs_arr f = true := by
      rw [frag_jobs_arr, hjn]
    have h := classify_skip_collect [f] (by
      intro g hg
      rw [List.mem_singleton] at hg
      subst hg
      exact ⟨hsk, hja⟩) rest ids
    rw [List.singleton_append] at h
    rw [h, collect_job_ids_cons, hjn]
    simp [collect_job_ids]
  · intro f rest ids hns
    rw [classify_fragments]
    cases hval : frag_result_val f with
    | jstr s => exact absurd hval (hns s)
    | jnull => rfl
    | jbool b => rfl
    | jnum n => rfl
    | jarr xs => rfl
    | jobj fs => rfl

/-- C5 amended witness: a fragment with an unrelated field is skipped (the
scan of it continues with the rest), and a fragment whose result is the
number 3 raises AttributeError. -/
theorem c5_skip_amended_witness :
    classify_fragments ([(("k").toList, JVal.jnum 7)] :: []) []
        = classify_fragments [] []
    ∧ classify_fragments ([(kRESULT, JVal.jnum 3)] :: []) []
        = .error PyErr.attributeError := by
  constructor
  · exact c5_skip_amended.1 [(("k").toList, JVal.jnum 7)] [] [] (by rfl) (by rfl)
  · exact c5_skip_amended.2 [(kRESULT, JVal.jnum 3)] [] []
      (fun s h => JVal.noConfusion (show JVal.jnum 3 = JVal.jstr s from h))

/- Observable events of one acquisition attempt: a polling tick (with its
   index), a sleep of a given interval, and the reading of the binary
   columnar stream. -/
inductive PollEvent where
  | tick (k : Nat)
  | sleepEv (n : Nat)
  | decodeArrow
deriving DecidableEq

/- The scan over resp.json() inside the polling loops: return the first
   entry whose obj.get("result", "") starts with the magic marker; a
   non-string result value raises AttributeError exactly as in Python. -/
def find_magic_entry : List Frag → Except PyErr (Option (List Char))
  | [] => .ok none
  | e :: rest =>
    match lookup_d e kRESULT (JVal.jstr []) with
    | JVal.jstr s => if MAGIC.isPrefixOf s then .ok (some s) else find_magic_entry rest
    | _ => .error PyErr.attributeError

/- all(obj.get("timeout", False) for obj in data) of poll_omni_job. -/
def all_timeout (es : List Frag) : Bool :=
  es.all fun e => py_truthy (lookup_d e kTIMEOUT (JVal.jbool false))

/- Poller of OmniClient._poll_job (src/omni_client.py lines 19-30): while the
   clock is before the deadline, issue a tick; return the first magic result;
   otherwise sleep the fixed interval and retry; past the deadline raise
   TimeoutError carrying the job ids.  Time is idealized: only sleeps advance
   the clock.  The fuel argument bounds the number of loop iterations; with a
   positive interval the loop runs at most endTime iterations, so the
   fuelExhausted branch is never reached by the top-level entry point. -/
def poll_aux_client (resp : Nat → List Frag) (jobIds : List JVal)
    (timeoutV endTime interval : Nat) :
    Nat → Nat → Nat → Except PyErr (List Char) × List PollEvent
  | 0, _, _ => (.error PyErr.fuelExhausted, [])
  | fuel + 1, now, k =>
    if now < endTime then
      match find_magic_entry (resp k) with
      | .error e => (.error e, [PollEvent.tick k])
      | .ok (some r) => (.ok r, [PollEvent.tick k])
      | .ok none =>
        let p := poll_aux_client resp jobIds timeoutV endTime interval fuel
          (now + interval) (k + 1)
        (p.1, PollEvent.tick k :: PollEvent.sleepEv interval :: p.2)
    else (.error (PyErr.timeoutError jobIds timeoutV), [])

def poll_job_client (resp : Nat → List Frag) (jobIds : List JVal)
    (timeoutV interval : Nat) : Except PyErr (List Char) × List PollEvent :=
  poll_aux_client resp jobIds timeoutV timeoutV interval (timeoutV + 1) 0 0

/- Poller of poll_omni_job (src/main.py lines 372-404): identical to
   _poll_job except that after an unsuccessful tick it sleeps only when every
   entry has a truthy timeout flag; otherwise it breaks out of the loop and
   raises TimeoutError immediately. -/
def poll_aux_main (resp : Nat → List Frag) (jobIds : List JVal)
    (timeoutV endTime interval : Nat) :
    Nat → Nat → Nat → Except PyErr (List Char) × List PollEvent
  | 0, _, _ => (.error PyErr.fuelExhausted, [])
  | fuel + 1, now, k =>
    if now < endTime then
      match find_magic_entry (resp k) with
      | .error e => (.error e, [PollEvent.tick k])
      | .ok (some r) => (.ok r, [PollEvent.tick k])
      | .ok none =>
        if all_timeout (resp k) then
          let p := poll_aux_main resp jobIds timeoutV endTime interval fuel
            (now + interval) (k + 1)
          (p.1, PollEvent.tick k :: PollEvent.sleepEv interval :: p.2)
        else (.error (PyErr.timeoutError jobIds timeoutV), [PollEvent.tick k])
    else (.error (PyErr.timeoutError jobIds timeoutV), [])

def poll_job_main (resp : Nat → List Frag) (jobIds : List JVal)
    (timeoutV interval : Nat) : Except PyErr (List Char) × List PollEvent :=
  poll_aux_main resp jobIds timeoutV timeoutV interval (timeoutV + 1) 0 0

/- The event trace of m unsuccessful ticks starting at tick j: each tick is
   immediately followed by a sleep of the fixed interval. -/
def tick_sleep_trace (interval : Nat) : Nat → Nat → List PollEvent
  | _, 0 => []
  | j, m + 1 => PollEvent.tick j :: PollEvent.sleepEv interval
      :: tick_sleep_trace interval (j + 1) m

def is_tick : PollEvent → Bool
  | PollEvent.tick _ => true
  | _ => false

def count_ticks (evs : List PollEvent) : Nat := (evs.filter is_tick).length

lemma count_ticks_trace (interval : Nat) :
    ∀ m j, count_ticks (tick_sleep_trace interval j m) = m := by
  intro m
  induction m with
  | zero => intro j; rfl
  | succ m ih =>
    intro j
    show count_ticks (PollEvent.tick j :: PollEvent.sleepEv interval
      :: tick_sleep_trace interval (j + 1) m) = m + 1
    unfold count_ticks at *
    simp [List.filter, is_tick, ih (j + 1)]

def ceil_div (a b : Nat) : Nat := (a + b - 1) / b

lemma lt_ceil_div_iff (a b j : Nat) (hb : 1 ≤ b) : j < ceil_div a b ↔ j * b < a := by
  unfold ceil_div
  rw [Nat.lt_iff_add_one_le, Nat.le_div_iff_mul_le (by omega), Nat.add_mul, Nat.one_mul]
  omega

lemma ceil_div_le_self (a b : Nat) (hb : 1 ≤ b) : ceil_div a b ≤ a := by
  unfold ceil_div
  have ha : a ≤ b * a := Nat.le_mul_of_pos_left a (by omega)
  calc (a + b - 1) / b ≤ ((b - 1) + b * a) / b := Nat.div_le_div_right (by omega)
    _ = (b - 1) / b + a := Nat.add_mul_div_left (b - 1) a (by omega)
    _ = a := by rw [Nat.div_eq_of_lt (by omega)]; omega

lemma ceil_div_floor_bounds (a b : Nat) (hb : 1 ≤ b) :
    a / b ≤ ceil_div a b ∧ ceil_div a b ≤ a / b + 1 := by
  unfold ceil_div
  constructor
  · exact Nat.div_le_div_right (by omega)
  · calc (a + b - 1) / b ≤ (a + b) / b := Nat.div_le_div_right (by omega)
      _ = a / b + 1 := Nat.add_div_right a (by omega)

lemma poll_client_timeout_aux (resp : Nat → List Frag) (ids : List JVal) (T I : Nat)
    (hI : 1 ≤ I) (hnm : ∀ k, find_magic_entry (resp k) = .ok none) :
    ∀ fuel j, ceil_div T I - j < fuel →
      poll_aux_client resp ids T T I fuel (j * I) j
        = (.error (PyErr.timeoutError ids T),
           tick_sleep_trace I j (ceil_div T I - j)) := by
  intro fuel
  induction fuel with
  | zero => intro j h; omega
  | succ fuel ih =>
    intro j h
    rw [poll_aux_client]
    by_cases hj : j * I < T
    · rw [if_pos hj, hnm j]
      have hlt : j < ceil_div T I := (lt_ceil_div_iff T I j hI).mpr hj
      have harg : j * I + I = (j + 1) * I := by ring
      have hrec := ih (j + 1) (by omega)
      rw [harg] at *
      show ((poll_aux_client resp ids T T I fuel ((j + 1) * I) (j + 1)).1,
        PollEvent.tick j :: PollEvent.sleepEv I
          :: (poll_aux_client resp ids T T I fuel ((j + 1) * I) (j + 1)).2)
        = _
      rw [hrec]
      rw [show ceil_div T I - j = (ceil_div T I - (j + 1)) + 1 by omega]
      rfl
    · rw [if_neg hj]
      have hge : ¬ j < ceil_div T I := fun hc => hj ((lt_ceil_div_iff T I j hI).mp hc)
      rw [show ceil_div T I - j = 0 by omega]
      rfl

lemma polls_agree_aux (resp : Nat → List Frag) (ids : List JVal) (T E I : Nat)
    (h : ∀ k, find_magic_entry (resp k) = .ok none → all_timeout (resp k) = true) :
    ∀ fuel now k, poll_aux_client resp ids T E I fuel now k
      = poll_aux_main resp ids T E I fuel now k := by
  intro fuel
  induction fuel with
  | zero => intro now k; rfl
  | succ fuel ih =>
    intro now k
    rw [poll_aux_client, poll_aux_main]
    by_cases hn : now < E
    · rw [if_pos hn, if_pos hn]
      cases hfm : find_magic_entry (resp k) with
      | error e => rfl
      | ok o =>
        cases o with
        | some r => rfl
        | none =>
          rw [h k hfm]
          simp [ih (now + I) (k + 1)]
    · rw [if_neg hn, if_neg hn]

/- The status-endpoint entry of the C3 scenario. -/
def timeout_frag : Frag := [(kTIMEOUT, JVal.jbool true)]

lemma find_magic_entry_timeout_frags :
    ∀ (es : List Frag), (∀ e ∈ es, e = timeout_frag) → find_magic_entry es = .ok none := by
  intro es
  induction es with
  | nil => intro _; rfl
  | cons e es ih =>
    intro h
    have he := h e (List.mem_cons_self e es)
    subst he
    rw [find_magic_entry]
    have hl : lookup_d timeout_frag kRESULT (JVal.jstr []) = JVal.jstr [] := rfl
    rw [hl]
    have hp : MAGIC.isPrefixOf ([] : List Char) = false := rfl
    simp only [hp, Bool.false_eq_true, if_false]
    exact ih (fun g hg => h g (List.mem_cons_of_mem _ hg))

lemma all_timeout_timeout_frags :
    ∀ (es : List Frag), (∀ e ∈ es, e = timeout_frag) → all_timeout es = true := by
  intro es h
  unfold all_timeout
  rw [List.all_eq_true]
  intro e he
  rw [h e he]
  rfl

/-- C3: when every entry of every status response until the deadline is the
object with just a truthy timeout flag (so no magic result ever appears),
both pollers fail with the TimeoutError carrying the outstanding job ids and
the configured timeout, the number of ticks performed is the ceiling of
timeout divided by interval, which is within one of the floor, and the
event trace is exactly tick-then-sleep(interval) repeated, so every
unsuccessful tick is followed by a sleep of the fixed interval. -/
theorem c3_poll_timeout (resp : Nat → List Frag) (ids : List JVal) (T I : Nat)
    (hI : 1 ≤ I) (hsc : ∀ k, ∀ e ∈ resp k, e = timeout_frag) :
    poll_job_client resp ids T I
        = (.error (PyErr.timeoutError ids T), tick_sleep_trace I 0 (ceil_div T I))
    ∧ poll_job_main resp ids T I
        = (.error (PyErr.timeoutError ids T), tick_sleep_trace I 0 (ceil_div T I))
    ∧ count_ticks (tick_sleep_trace I 0 (ceil_div T I)) = ceil_div T I
    ∧ T / I ≤ ceil_div T I ∧ ceil_div T I ≤ T / I + 1 := by
  have hnm : ∀ k, find_magic_entry (resp k) = .ok none :=
    fun k => find_magic_entry_timeout_frags (resp k) (hsc k)
  have hcl : poll_job_client resp ids T I
      = (.error (PyErr.timeoutError ids T), tick_sleep_trace I 0 (ceil_div T I)) := by
    unfold poll_job_client
    have haux := poll_client_timeout_aux resp ids T I hI hnm (T + 1) 0
      (by have := ceil_div_le_self T I hI; omega)
    rw [Nat.zero_mul] at haux
    simpa using haux
  have hagree : poll_job_client resp ids T I = poll_job_main resp ids T I :=
    polls_agree_aux resp ids T T I
      (fun k _ => all_timeout_timeout_frags (resp k) (hsc k)) (T + 1) 0 0
  refine ⟨hcl, by rw [← hagree]; exact hcl,
    count_ticks_trace I (ceil_div T I) 0,
    (ceil_div_floor_bounds T I hI).1, (ceil_div_floor_bounds T I hI).2⟩

/-- C3 witness: with the default timeout 30 and interval 3 and a constant
all-timeout status response, the client poller fails with the TimeoutError
carrying the job id list, and the tick count is the ceiling of 30 / 3. -/
theorem c3_poll_timeout_witness :
    poll_job_client (fun _ => [timeout_frag]) [JVal.jstr (("j1").toList)] 30 3
      = (.error (PyErr.timeoutError [JVal.jstr (("j1").toList)] 30),
         tick_sleep_trace 3 0 (ceil_div 30 3))
    ∧ count_ticks (tick_sleep_trace 3 0 (ceil_div 30 3)) = ceil_div 30 3 := by
  have h := c3_poll_timeout (fun _ => [timeout_frag]) [JVal.jstr (("j1").toList)] 30 3
    (by omega) (fun k e he => by simpa using he)
  exact ⟨h.1, h.2.2.1⟩

/- C9 counterexample scenario: the first status response is a single empty
object (no result, no timeout flag), the second carries a magic result. -/
def c9_resp : Nat → List Frag :=
  fun k => if k = 0 then [[]] else [[(kRESULT, JVal.jstr (("/////AAA").toList))]]

/-- C9 counterexample: on c9_resp the omni_client poller sleeps after the
unsuccessful first tick and succeeds on the second, while the main.py poller
(whose sleep is guarded by the all-timeout check) breaks out after the first
tick and raises TimeoutError: the two pollers are not equivalent. -/
theorem c9_pollers_differ :
    (poll_job_client c9_resp [] 6 3).1 = .ok (("/////AAA").toList)
    ∧ (poll_job_main c9_resp [] 6 3).1 = .error (PyErr.timeoutError [] 6) := by
  constructor
  · rfl
  · rfl

/-- C9 (amended): the two pollers are equivalent (same outcome and same
event trace, hence the same number of ticks) whenever every status response
carrying no magic result has all its entries flagged with a truthy timeout;
in general poll_omni_job additionally aborts as soon as some entry lacks the
timeout flag, and may therefore time out where _poll_job later succeeds. -/
theorem c9_pollers_agree_amended (resp : Nat → List Frag) (ids : List JVal) (T I : Nat)
    (h : ∀ k, find_magic_entry (resp k) = .ok none → all_timeout (resp k) = true) :
    poll_job_client resp ids T I = poll_job_main resp ids T I :=
  polls_agree_aux resp ids T T I h (T + 1) 0 0

/-- C9 amended witness: with a constant all-timeout status response the two
pollers coincide. -/
theorem c9_pollers_agree_amended_witness :
    poll_job_client (fun _ => [timeout_frag]) [] 6 3
      = poll_job_main (fun _ => [timeout_frag]) [] 6 3 :=
  c9_pollers_agree_amended (fun _ => [timeout_frag]) [] 6 3 (fun _ _ => rfl)

/- Decoded column values of the columnar stream: strings, numbers, booleans
   and nulls, as section 4.4 of the spec lists them. -/
inductive CVal where
  | vint (n : Nat)
  | vbool (b : Bool)
  | vstr (s : List Nat)
  | vnull
deriving DecidableEq

/- One column of the stream schema: a name (a byte string) and a declared
   value type tag. -/
structure ColHeader where
  name : List Nat
  ctype : Nat
deriving DecidableEq

/- The decoded tabular output: ordered column names and per-column values. -/
structure ResultTable where
  colNames : List (List Nat)
  cols : List (List CVal)
deriving DecidableEq

def rd_u8 : List Nat → Except Unit (Nat × List Nat)
  | [] => .error ()
  | b :: r => .ok (b, r)

def rd_chunk : Nat → List Nat → Except Unit (List Nat × List Nat)
  | 0, bs => .ok ([], bs)
  | _ + 1, [] => .error ()
  | n + 1, b :: r =>
    match rd_chunk n r with
    | .error e => .error e
    | .ok (xs, r2) => .ok (b :: xs, r2)

def rd_headers : Nat → List Nat → Except Unit (List ColHeader × List Nat)
  | 0, bs => .ok ([], bs)
  | n + 1, bs =>
    match rd_u8 bs with
    | .error e => .error e
    | .ok (len, bs1) =>
      match rd_chunk len bs1 with
      | .error e => .error e
      | .ok (nm, bs2) =>
        match rd_u8 bs2 with
        | .error e => .error e
        | .ok (t, bs3) =>
          match rd_headers n bs3 with
          | .error e => .error e
          | .ok (hs, bs4) => .ok (⟨nm, t⟩ :: hs, bs4)

def rd_val (t : Nat) (bs : List Nat) : Except Unit (CVal × List Nat) :=
  if t = 0 then
    match rd_u8 bs with
    | .error e => .error e
    | .ok (n, r) => .ok (CVal.vint n, r)
  else if t = 1 then
    match rd_u8 bs with
    | .error e => .error e
    | .ok (b, r) =>
      if b = 0 then .ok (CVal.vbool false, r)
      else if b = 1 then .ok (CVal.vbool true, r)
      else .error ()
  else if t = 2 then
    match rd_u8 bs with
    | .error e => .error e
    | .ok (len, r) =>
      match rd_chunk len r with
      | .error e => .error e
      | .ok (s, r2) => .ok (CVal.vstr s, r2)
  else if t = 3 then .ok (CVal.vnull, bs)
  else .error ()

def rd_col (t : Nat) : Nat → List Nat → Except Unit (List CVal × List Nat)
  | 0, bs => .ok ([], bs)
  | m + 1, bs =>
    match rd_val t bs with
    | .error e => .error e
    | .ok (v, r) =>
      match rd_col t m r with
      | .error e => .error e
      | .ok (vs, r2) => .ok (v :: vs, r2)

def rd_cols (nRows : Nat) : List ColHeader → List Nat → Except Unit (List (List CVal) × List Nat)
  | [], bs => .ok ([], bs)
  | h :: hs, bs =>
    match rd_col h.ctype nRows bs with
    | .error e => .error e
    | .ok (c, r) =>
      match rd_cols nRows hs r with
      | .error e => .error e
      | .ok (cs, r2) => .ok (c :: cs, r2)

/-- Modelled from the spec: the self-describing binary columnar stream read
by pa.ipc.RecordBatchStreamReader(buffer).read_all() (pyarrow is not part of
this repository, so section 4.4 of the spec is the authority): a schema (a
column count, then per column a length-prefixed name and a declared type
tag), a row count, then the values of each column in schema order encoded
per the declared type.  Parsing returns the table and the unconsumed
remainder, and fails explicitly on truncated input. -/
def parse_table (bs : List Nat) : Except Unit (ResultTable × List Nat) :=
  match rd_u8 bs with
  | .error e => .error e
  | .ok (nCols, bs1) =>
    match rd_headers nCols bs1 with
    | .error e => .error e
    | .ok (hs, bs2) =>
      match rd_u8 bs2 with
      | .error e => .error e
      | .ok (nRows, bs3) =>
        match rd_cols nRows hs bs3 with
        | .error e => .error e
        | .ok (cols, bs4) => .ok (⟨hs.map ColHeader.name, cols⟩, bs4)

/-- Modelled from the spec: decoding an entire buffer as one columnar
stream; trailing bytes beyond the declared content make it invalid, and a
parse failure yields an error, never a partially populated table. -/
def decode_stream (bs : List Nat) : Except Unit ResultTable :=
  match parse_table bs with
  | .ok (t, []) => .ok t
  | .ok (_, _ :: _) => .error ()
  | .error _ => .error ()

/- The reading step at the end of run_query: wrap stream-decoding failures
   as the pyarrow ArrowInvalid error. -/
def arrow_read (bs : List Nat) : Except PyErr ResultTable :=
  match decode_stream bs with
  | .ok t => .ok t
  | .error _ => .error PyErr.arrowInvalid

/- The full decode step applied to an encoded result string:
   base64.b64decode then the columnar stream read. -/
def decode_step (s : List Char) : Except PyErr ResultTable :=
  match b64decode s with
  | .error e => .error e
  | .ok bs => arrow_read bs

/- A parser is extension-invariant when its answer is determined by the
   consumed prefix of the input: whatever follows that prefix is returned
   untouched. -/
def PExt {α : Type} (P : List Nat → Except Unit (α × List Nat)) : Prop :=
  ∀ bs v r, P bs = .ok (v, r) → ∃ c, bs = c ++ r ∧ ∀ t, P (c ++ t) = .ok (v, t)

lemma pext_rd_u8 : PExt rd_u8 := by
  intro bs v r h
  cases bs with
  | nil => simp [rd_u8] at h
  | cons b r0 =>
    simp [rd_u8] at h
    obtain ⟨hv, hr⟩ := h
    subst hv
    subst hr
    exact ⟨[b], rfl, fun t => rfl⟩

lemma pext_rd_chunk : ∀ n, PExt (rd_chunk n) := by
  intro n
  induction n with
  | zero =>
    intro bs v r h
    simp [rd_chunk] at h
    obtain ⟨hv, hr⟩ := h
    subst hv
    subst hr
    exact ⟨[], rfl, fun t => rfl⟩
  | succ n ih =>
    intro bs v r h
    cases bs with
    | nil => simp [rd_chunk] at h
    | cons b r0 =>
      rw [rd_chunk] at h
      cases hc : rd_chunk n r0 with
      | error e => rw [hc] at h; simp at h
      | ok p =>
        obtain ⟨xs, r2⟩ := p
        rw [hc] at h
        simp at h
        obtain ⟨hv, hr⟩ := h
        subst hv
        subst hr
        obtain ⟨c0, hc0, hext⟩ := ih r0 xs r2 hc
        refine ⟨b :: c0, by rw [hc0, List.cons_append], fun t => ?_⟩
        rw [List.cons_append, rd_chunk, hext t]

lemma pext_rd_headers : ∀ n, PExt (rd_headers n) := by
  intro n
  induction n with
  | zero =>
    intro bs v r h
    simp [rd_headers] at h
    obtain ⟨hv, hr⟩ := h
    subst hv
    subst hr
    exact ⟨[], rfl, fun t => rfl⟩
  | succ n ih =>
    intro bs v r h
    rw [rd_headers] at h
    cases h1 : rd_u8 bs with
    | error e => rw [h1] at h; simp at h
    | ok p1 =>
      obtain ⟨len, bs1⟩ := p1
      rw [h1] at h
      dsimp only at h
      cases h2 : rd_chunk len bs1 with
      | error e => rw [h2] at h; simp at h
      | ok p2 =>
        obtain ⟨nm, bs2⟩ := p2
        rw [h2] at h
        dsimp only at h
        cases h3 : rd_u8 bs2 with
        | error e => rw [h3] at h; simp at h
        | ok p3 =>
          obtain ⟨tt, bs3⟩ := p3
          rw [h3] at h
          dsimp only at h
          cases h4 : rd_headers n bs3 with
          | error e => rw [h4] at h; simp at h
          | ok p4 =>
            obtain ⟨hs, bs4⟩ := p4
            rw [h4] at h
            dsimp only at h
            simp at h
            obtain ⟨hv, hr⟩ := h
            subst hv
            subst hr
            obtain ⟨c1, hc1, he1⟩ := pext_rd_u8 bs len bs1 h1
            obtain ⟨c2, hc2, he2⟩ := pext_rd_chunk len bs1 nm bs2 h2
            obtain ⟨c3, hc3, he3⟩ := pext_rd_u8 bs2 tt bs3 h3
            obtain ⟨c4, hc4, he4⟩ := ih bs3 hs bs4 h4
            refine ⟨c1 ++ (c2 ++ (c3 ++ c4)), ?_, fun t => ?_⟩
            · rw [hc1, hc2, hc3, hc4]
              simp [List.append_assoc]
            · simp only [List.append_assoc, rd_headers, he1, he2, he3, he4]

lemma pext_rd_val (t : Nat) : PExt (rd_val t) := by
  intro bs v r h
  unfold rd_val at h
  by_cases h0 : t = 0
  · rw [if_pos h0] at h
    cases h1 : rd_u8 bs with
    | error e => rw [h1] at h; simp at h
    | ok p1 =>
      obtain ⟨n, r0⟩ := p1
      rw [h1] at h
      dsimp only at h
      simp at h
      obtain ⟨hv, hr⟩ := h
      subst hv
      subst hr
      obtain ⟨c1, hc1, he1⟩ := pext_rd_u8 bs n r0 h1
      exact ⟨c1, hc1, fun u => by unfold rd_val; rw [if_pos h0, he1 u]⟩
  · rw [if_neg h0] at h
    by_cases h1t : t = 1
    · rw [if_pos h1t] at h
      cases h1 : rd_u8 bs with
      | error e => rw [h1] at h; simp at h
      | ok p1 =>
        obtain ⟨b, r0⟩ := p1
        rw [h1] at h
        dsimp only at h
        obtain ⟨c1, hc1, he1⟩ := pext_rd_u8 bs b r0 h1
        by_cases hb0 : b = 0
        · rw [if_pos hb0] at h
          simp at h
          obtain ⟨hv, hr⟩ := h
          subst hv
          subst hr
          exact ⟨c1, hc1, fun u => by
            simp only [rd_val, if_neg h0, if_pos h1t, he1, if_pos hb0]⟩
        · rw [if_neg hb0] at h
          by_cases hb1 : b = 1
          · rw [if_pos hb1] at h
            simp at h
            obtain ⟨hv, hr⟩ := h
            subst hv
            subst hr
            exact ⟨c1, hc1, fun u => by
              simp only [rd_val, if_neg h0, if_pos h1t, he1, if_neg hb0, if_pos hb1]⟩
          · rw [if_neg hb1] at h
            simp at h
    · rw [if_neg h1t] at h
      by_cases h2t : t = 2
      · rw [if_pos h2t] at h
        cases h1 : rd_u8 bs with
        | error e => rw [h1] at h; simp at h
        | ok p1 =>
          obtain ⟨len, r0⟩ := p1
          rw [h1] at h
          dsimp only at h
          cases h2 : rd_chunk len r0 with
          | error e => rw [h2] at h; simp at h
          | ok p2 =>
            obtain ⟨s, r2⟩ := p2
            rw [h2] at h
            dsimp only at h
            simp at h
            obtain ⟨hv, hr⟩ := h
            subst hv
            subst hr
            obtain ⟨c1, hc1, he1⟩ := pext_rd_u8 bs len r0 h1
            obtain ⟨c2, hc2, he2⟩ := pext_rd_chunk len r0 s r2 h2
            refine ⟨c1 ++ c2, by rw [hc1, hc2, List.append_assoc], fun u => ?_⟩
            simp only [rd_val, if_neg h0, if_neg h1t, if_pos h2t, List.append_assoc, he1, he2]
      · rw [if_neg h2t] at h
        by_cases h3t : t = 3
        · rw [if_pos h3t] at h
          simp at h
          obtain ⟨hv, hr⟩ := h
          subst hv
          subst hr
          exact ⟨[], rfl, fun u => by
            unfold rd_val
            rw [if_neg h0, if_neg h1t, if_neg h2t, if_pos h3t, List.nil_append]⟩
        · rw [if_neg h3t] at h
          simp at h

lemma pext_rd_col (t : Nat) : ∀ m, PExt (rd_col t m) := by
  intro m
  induction m with
  | zero =>
    intro bs v r h
    simp [rd_col] at h
    obtain ⟨hv, hr⟩ := h
    subst hv
    subst hr
    exact ⟨[], rfl, fun u => rfl⟩
  | succ m ih =>
    intro bs v r h
    rw [rd_col] at h
    cases h1 : rd_val t bs with
    | error e => rw [h1] at h; simp at h
    | ok p1 =>
      obtain ⟨x, r0⟩ := p1
      rw [h1] at h
      dsimp only at h
      cases h2 : rd_col t m r0 with
      | error e => rw [h2] at h; simp at h
      | ok p2 =>
        obtain ⟨vs, r2⟩ := p2
        rw [h2] at h
        dsimp only at h
        simp at h
        obtain ⟨hv, hr⟩ := h
        subst hv
        subst hr
        obtain ⟨c1, hc1, he1⟩ := pext_rd_val t bs x r0 h1
        obtain ⟨c2, hc2, he2⟩ := ih r0 vs r2 h2
        refine ⟨c1 ++ c2, by rw [hc1, hc2, List.append_assoc], fun u => ?_⟩
        simp only [List.append_assoc, rd_col, he1, he2]

lemma pext_rd_cols (nRows : Nat) : ∀ hs, PExt (rd_cols nRows hs) := by
  intro hs
  induction hs with
  | nil =>
    intro bs v r h
    simp [rd_cols] at h
    obtain ⟨hv, hr⟩ := h
    subst hv
    subst hr
    exact ⟨[], rfl, fun u => rfl⟩
  | cons hd hs ih =>
    intro bs v r h
    rw [rd_cols] at h
    cases h1 : rd_col hd.ctype nRows bs with
    | error e => rw [h1] at h; simp at h
    | ok p1 =>
      obtain ⟨c, r0⟩ := p1
      rw [h1] at h
      dsimp only at h
      cases h2 : rd_cols nRows hs r0 with
      | error e => rw [h2] at h; simp at h
      | ok p2 =>
        obtain ⟨cs, r2⟩ := p2
        rw [h2] at h
        dsimp only at h
        simp at h
        obtain ⟨hv, hr⟩ := h
        subst hv
        subst hr
        obtain ⟨c1, hc1, he1⟩ := pext_rd_col hd.ctype nRows bs c r0 h1
        obtain ⟨c2, hc2, he2⟩ := ih r0 cs r2 h2
        refine ⟨c1 ++ c2, by rw [hc1, hc2, List.append_assoc], fun u => ?_⟩
        simp only [List.append_assoc, rd_cols, he1, he2]

lemma pext_parse_table : PExt parse_table := by
  intro bs v r h
  rw [parse_table] at h
  cases h1 : rd_u8 bs with
  | error e => rw [h1] at h; simp at h
  | ok p1 =>
    obtain ⟨nCols, bs1⟩ := p1
    rw [h1] at h
    dsimp only at h
    cases h2 : rd_headers nCols bs1 with
    | error e => rw [h2] at h; simp at h
    | ok p2 =>
      obtain ⟨hs, bs2⟩ := p2
      rw [h2] at h
      dsimp only at h
      cases h3 : rd_u8 bs2 with
      | error e => rw [h3] at h; simp at h
      | ok p3 =>
        obtain ⟨nRows, bs3⟩ := p3
        rw [h3] at h
        dsimp only at h
        cases h4 : rd_cols nRows hs bs3 with
        | error e => rw [h4] at h; simp at h
        | ok p4 =>
          obtain ⟨cols, bs4⟩ := p4
          rw [h4] at h
          dsimp only at h
          simp at h
          obtain ⟨hv, hr⟩ := h
          subst hv
          subst hr
          obtain ⟨c1, hc1, he1⟩ := pext_rd_u8 bs nCols bs1 h1
          obtain ⟨c2, hc2, he2⟩ := pext_rd_headers nCols bs1 hs bs2 h2
          obtain ⟨c3, hc3, he3⟩ := pext_rd_u8 bs2 nRows bs3 h3
          obtain ⟨c4, hc4, he4⟩ := pext_rd_cols nRows hs bs3 cols bs4 h4
          refine ⟨c1 ++ (c2 ++ (c3 ++ c4)), ?_, fun u => ?_⟩
          · rw [hc1, hc2, hc3, hc4]
            simp [List.append_assoc]
          · simp only [List.append_assoc, parse_table, he1, he2, he3, he4]

lemma decode_stream_ok_parse (bs : List Nat) (t : ResultTable)
    (h : decode_stream bs = .ok t) : parse_table bs = .ok (t, []) := by
  unfold decode_stream at h
  cases hp : parse_table bs with
  | error e => rw [hp] at h; simp at h
  | ok p =>
    obtain ⟨t2, r⟩ := p
    rw [hp] at h
    cases r with
    | nil =>
      dsimp only at h
      simp at h
      subst h
      rfl
    | cons b r2 =>
      dsimp only at h
      simp at h

lemma decode_stream_truncated (bs : List Nat) (t : ResultTable) (k : Nat)
    (hok : decode_stream bs = .ok t) (hk : k < bs.length) :
    decode_stream (bs.take k) = .error () := by
  have hp := decode_stream_ok_parse bs t hok
  cases hd : decode_stream (bs.take k) with
  | error e => cases e; rfl
  | ok t2 =>
    exfalso
    have hp2 := decode_stream_ok_parse (bs.take k) t2 hd
    obtain ⟨c, hc, hext⟩ := pext_parse_table (bs.take k) t2 [] hp2
    rw [List.append_nil] at hc
    have h3 := hext (bs.drop k)
    have hb : c ++ bs.drop k = bs := by
      rw [← hc, List.take_append_drop]
    rw [hb, hp] at h3
    simp at h3
    have hlen := h3.2
    omega

/- Encoding of a schema column for the zero-row stream: length-prefixed name
   then the type tag. -/
def encode_header (h : ColHeader) : List Nat :=
  h.name.length :: (h.name ++ [h.ctype])

/- A columnar stream declaring the given columns and zero rows. -/
def encode_zero_row_stream (hs : List ColHeader) : List Nat :=
  hs.length :: ((hs.map encode_header).flatten ++ [0])

lemma rd_chunk_exact (l : List Nat) : ∀ r, rd_chunk l.length (l ++ r) = .ok (l, r) := by
  induction l with
  | nil => intro r; rfl
  | cons b l ih =>
    intro r
    show rd_chunk (l.length + 1) (b :: (l ++ r)) = .ok (b :: l, r)
    rw [rd_chunk, ih r]

lemma rd_headers_encoded (hs : List ColHeader) :
    ∀ r, rd_headers hs.length ((hs.map encode_header).flatten ++ r) = .ok (hs, r) := by
  induction hs with
  | nil => intro r; simp [rd_headers]
  | cons h hs ih =>
    intro r
    have e1 : (List.map encode_header (h :: hs)).flatten ++ r
        = h.name.length
          :: (h.name ++ (h.ctype :: ((hs.map encode_header).flatten ++ r))) := by
      simp [encode_header, List.append_assoc]
    rw [show (h :: hs).length = hs.length + 1 from rfl, e1, rd_headers]
    simp only [rd_u8]
    rw [show h.name ++ (h.ctype :: ((hs.map encode_header).flatten ++ r))
        = h.name ++ ([h.ctype] ++ ((hs.map encode_header).flatten ++ r)) from rfl]
    rw [rd_chunk_exact h.name ([h.ctype] ++ ((hs.map encode_header).flatten ++ r))]
    rw [show ([h.ctype] ++ ((hs.map encode_header).flatten ++ r))
        = h.ctype :: ((hs.map encode_header).flatten ++ r) from rfl]
    simp only [rd_u8]
    rw [ih r]

lemma rd_cols_zero (hs : List ColHeader) :
    ∀ bs, rd_cols 0 hs bs = .ok (hs.map fun _ => [], bs) := by
  induction hs with
  | nil => intro bs; rfl
  | cons h hs ih =>
    intro bs
    rw [rd_cols]
    show (match rd_cols 0 hs bs with
      | Except.error e => Except.error e
      | Except.ok (cs, r2) => Except.ok (([] : List CVal) :: cs, r2)) = _
    rw [ih bs]
    rfl

lemma decode_zero_row (hs : List ColHeader) :
    decode_stream (encode_zero_row_stream hs)
      = .ok ⟨hs.map ColHeader.name, hs.map fun _ => []⟩ := by
  unfold decode_stream parse_table encode_zero_row_stream
  simp only [rd_u8]
  rw [rd_headers_encoded hs [0]]
  simp only [rd_u8]
  rw [rd_cols_zero hs []]

/-- C6: the decode step fails exactly on invalid input and never yields a
partial table: a base64 decoding error on the encoded result makes the whole
decode step fail with that error and no table; truncating any valid columnar
stream anywhere strictly before its end makes stream decoding fail (never a
partially populated table); and a valid zero-row stream decodes successfully
to a ResultTable with exactly the declared column names and zero rows in
every column. -/
theorem c6_decode_errors :
    (∀ (s : List Char) (e : PyErr), b64decode s = .error e → decode_step s = .error e)
    ∧ (∀ (bs : List Nat) (t : ResultTable) (k : Nat),
        decode_stream bs = .ok t → k < bs.length → decode_stream (bs.take k) = .error ())
    ∧ (∀ hs : List ColHeader,
        decode_stream (encode_zero_row_stream hs)
          = .ok ⟨hs.map ColHeader.name, hs.map fun _ => []⟩) := by
  refine ⟨?_, decode_stream_truncated, decode_zero_row⟩
  intro s e h
  unfold decode_step
  rw [h]

/-- C6 witness: a corrupted base64 string fails with the binascii error, the
4-byte single-column zero-row stream truncated to 2 bytes fails to decode,
and the zero-row stream declaring one column named 0x07 decodes to that
column with no rows. -/
theorem c6_decode_errors_witness :
    decode_step (("!!!a").toList) = .error PyErr.binasciiError
    ∧ decode_stream (([1, 0, 0, 0] : List Nat).take 2) = .error ()
    ∧ decode_stream (encode_zero_row_stream [⟨[7], 0⟩])
        = .ok ⟨[[7]], [[]]⟩ :=
  ⟨c6_decode_errors.1 (("!!!a").toList) PyErr.binasciiError rfl,
   c6_decode_errors.2.1 [1, 0, 0, 0] ⟨[[]], [[]]⟩ 2 rfl (by decide),
   c6_decode_errors.2.2 [⟨[7], 0⟩]⟩

/- Python truthiness of the arrow_data variable of run_query: None and empty
   bytes are falsy, nonempty bytes truthy. -/
def bytes_falsy : Option (List Nat) → Bool
  | none => true
  | some [] => true
  | some (_ :: _) => false

def msg_not_found : List Char := ("Arrow table not found").toList

/- Lines 62-67 of src/omni_client.py: if not arrow_data: raise
   Exception("Arrow table not found"); otherwise read the stream (the
   stream-read is recorded as an event). -/
def finish_arrow (arrow : Option (List Nat)) (evs : List PollEvent) :
    Except PyErr ResultTable × List PollEvent :=
  match arrow with
  | none => (.error (PyErr.exception msg_not_found), evs)
  | some [] => (.error (PyErr.exception msg_not_found), evs)
  | some bs => (arrow_read bs, evs ++ [PollEvent.decodeArrow])

/- Line 60: arrow_data = base64.b64decode(self._poll_job(job_ids)), followed
   by the final truthiness check and stream read. -/
def poll_then_finish (p : Nat → List Frag) (ids : List JVal) (T I : Nat) :
    Except PyErr ResultTable × List PollEvent :=
  match poll_job_client p ids T I with
  | (.error e, evs) => (.error e, evs)
  | (.ok s, evs) =>
    match b64decode s with
    | .error e => (.error e, evs)
    | .ok bs => finish_arrow (some bs) evs

/- Lines 59-67 of run_query after the classification scan:
   if not arrow_data and job_ids: poll and decode; then the final check. -/
def run_dispatch (arrow0 : Option (List Nat)) (ids : List JVal)
    (p : Nat → List Frag) (T I : Nat) : Except PyErr ResultTable × List PollEvent :=
  if bytes_falsy arrow0 && !ids.isEmpty then poll_then_finish p ids T I
  else finish_arrow arrow0 []

/- OmniClient.run_query / get_omni_query_results from the parsed fragment
   list on: classify, then dispatch.  The HTTP POST and json.loads are
   externalized: the function receives the parsed fragments of the response
   body and the per-tick parsed bodies of the status endpoint. -/
def run_from_frags (frags : List Frag) (p : Nat → List Frag) (T I : Nat) :
    Except PyErr ResultTable × List PollEvent :=
  match classify_fragments frags [] with
  | .error e => (.error e, [])
  | .ok (arrow0, ids) => run_dispatch arrow0 ids p T I

/- Lines 32-36 of src/omni_client.py: the query document is passed verbatim
   as the JSON body of the POST to /query/run.  The first component records
   the payload handed to the transport, the second the processing of the
   server's reply. -/
def run_query_http (query_json : JVal) (server : JVal → List Frag)
    (p : Nat → List Frag) (T I : Nat) :
    JVal × (Except PyErr ResultTable × List PollEvent) :=
  (query_json, run_from_frags (server query_json) p T I)

/-- C4: if scanning all fragments finds no magic inline result and collects
no job identifiers, run_query fails with the Arrow-table-not-found error
(the MalformedResponse of the spec), with an empty event trace: no polling
tick, no sleep and no stream decoding happen. -/
theorem c4_malformed_response (frags : List Frag) (p : Nat → List Frag) (T I : Nat)
    (h : classify_fragments frags [] = .ok (none, [])) :
    run_from_frags frags p T I = (.error (PyErr.exception msg_not_found), []) := by
  unfold run_from_frags
  rw [h]
  rfl

/-- C4 witness: an empty fragment list classifies to no result and no job
ids, and the run fails with the not-found error and an empty trace. -/
theorem c4_malformed_response_witness :
    run_from_frags [] (fun _ => []) 30 3
      = (.error (PyErr.exception msg_not_found), []) :=
  c4_malformed_response [] (fun _ => []) 30 3 rfl

/-- C2: scanning stops at the first fragment whose result is a magic string:
classification of pre ++ m :: post (pre all skippable with list-shaped job
id fields, m carrying a magic-prefixed result string s) equals
classification of pre ++ [m], so no later fragment is examined, and its
value is the base64 decoding of s (the definitive EncodedResult) together
with the ids collected before it; when that decoding succeeds the full run
performs no polling: its event trace is exactly the single stream-read
event, so the job poller is never invoked even though earlier fragments
contributed job identifiers. -/
theorem c2_first_inline_wins (pre : List Frag) (m : Frag) (post : List Frag)
    (s : List Char)
    (hpre : ∀ f ∈ pre, frag_skippable f = true ∧ frag_jobs_arr f = true)
    (hm : frag_result_val m = JVal.jstr s) (hmag : MAGIC.isPrefixOf s = true) :
    (∀ ids, classify_fragments (pre ++ m :: post) ids
        = classify_fragments (pre ++ [m]) ids)
    ∧ (∀ ids, classify_fragments (pre ++ m :: post) ids
        = match b64decode s with
          | .error e => .error e
          | .ok bs => .ok (some bs, ids ++ collect_job_ids pre))
    ∧ (∀ (bs : List Nat) (p : Nat → List Frag) (T I : Nat), b64decode s = .ok bs →
        (run_from_frags (pre ++ m :: post) p T I).2 = [PollEvent.decodeArrow]) := by
  have hstep : ∀ (rest : List Frag) (ids : List JVal),
      classify_fragments (m :: rest) ids
        = match b64decode s with
          | .error e => .error e
          | .ok bs => .ok (some bs, ids) := by
    intro rest ids
    rw [classify_fragments, hm]
    simp [hmag]
  have hclass : ∀ ids, classify_fragments (pre ++ m :: post) ids
      = match b64decode s with
        | .error e => .error e
        | .ok bs => .ok (some bs, ids ++ collect_job_ids pre) := by
    intro ids
    rw [classify_skip_collect pre hpre (m :: post) ids,
      hstep post (ids ++ collect_job_ids pre)]
  have hclass1 : ∀ ids, classify_fragments (pre ++ [m]) ids
      = match b64decode s with
        | .error e => .error e
        | .ok bs => .ok (some bs, ids ++ collect_job_ids pre) := by
    intro ids
    rw [classify_skip_collect pre hpre [m] ids,
      hstep [] (ids ++ collect_job_ids pre)]
  refine ⟨fun ids => by rw [hclass ids, hclass1 ids], hclass, ?_⟩
  intro bs p T I hbs
  obtain ⟨t0, hb255⟩ := b64decode_magic_head s bs hmag hbs
  unfold run_from_frags
  have hc2 : classify_fragments (pre ++ m :: post) []
      = .ok (some bs, [] ++ collect_job_ids pre) := by
    rw [hclass [], hbs]
  rw [hc2]
  subst hb255
  dsimp only
  unfold run_dispatch
  rw [show bytes_falsy (some (255 :: 255 :: 255 :: t0)) = false from rfl]
  simp [finish_arrow]

def c2_pre_example : List Frag := [[(kJOBIDS, JVal.jarr [JVal.jstr (("j1").toList)])]]

def c2_magic_frag : Frag := [(kRESULT, JVal.jstr (("////////").toList))]

/-- C2 witness: with one job-id fragment before an inline magic result and a
junk fragment after it, classification ignores the later fragment (which
would raise AttributeError if it were examined) and the run's event trace is
just the stream read: no poll tick. -/
theorem c2_first_inline_wins_witness :
    classify_fragments (c2_pre_example
        ++ c2_magic_frag :: [[(("x").toList, JVal.jnull)]]) []
      = classify_fragments (c2_pre_example ++ [c2_magic_frag]) []
    ∧ (run_from_frags (c2_pre_example ++ c2_magic_frag :: [[(("x").toList, JVal.jnull)]])
        (fun _ => []) 3 3).2 = [PollEvent.decodeArrow] := by
  have h := c2_first_inline_wins c2_pre_example c2_magic_frag
    [[(("x").toList, JVal.jnull)]] (("////////").toList) (by decide) rfl rfl
  exact ⟨h.1 [], h.2.2 [255, 255, 255, 255, 255, 255] (fun _ => []) 3 3 rfl⟩

/-- C10: the post-scan dispatch of run_query decides presence of a result by
Python truthiness of the decoded bytes, not by whether a magic-prefixed
string was found: with an empty decoded payload it behaves exactly as if no
inline result existed — dispatch on empty bytes equals dispatch on none —
so it enters the polling branch when job identifiers were collected and
raises the Arrow-table-not-found error when none were. -/
theorem c10_empty_bytes_dispatch (ids : List JVal) (p : Nat → List Frag) (T I : Nat) :
    run_dispatch (some []) ids p T I = run_dispatch none ids p T I
    ∧ run_dispatch (some []) [] p T I = (.error (PyErr.exception msg_not_found), [])
    ∧ (ids ≠ [] → run_dispatch (some []) ids p T I = poll_then_finish p ids T I) := by
  refine ⟨?_, rfl, ?_⟩
  · cases ids with
    | nil => rfl
    | cons a l => rfl
  · intro hne
    cases ids with
    | nil => exact absurd rfl hne
    | cons a l => rfl

/-- C10 witness: with one collected job id, dispatch on an empty decoded
payload coincides with dispatch on no payload and takes the polling path. -/
theorem c10_empty_bytes_dispatch_witness :
    run_dispatch (some []) [JVal.jstr (("j").toList)] (fun _ => []) 3 3
        = run_dispatch none [JVal.jstr (("j").toList)] (fun _ => []) 3 3
    ∧ run_dispatch (some []) [JVal.jstr (("j").toList)] (fun _ => []) 3 3
        = poll_then_finish (fun _ => []) [JVal.jstr (("j").toList)] 3 3 := by
  have h := c10_empty_bytes_dispatch [JVal.jstr (("j").toList)] (fun _ => []) 3 3
  exact ⟨h.1, h.2.2 (by simp)⟩

/-- C8: the query request document is submitted verbatim — the payload the
engine hands to the transport is the caller's document itself, unchanged
(the embedding is pure, so the call cannot mutate the mapping) — and no
field of it influences control flow: two documents to which the server
replies identically are processed identically. -/
theorem c8_request_verbatim (q1 q2 : JVal) (server : JVal → List Frag)
    (p : Nat → List Frag) (T I : Nat) (h : server q1 = server q2) :
    (run_query_http q1 server p T I).1 = q1
    ∧ (run_query_http q1 server p T I).2 = (run_query_http q2 server p T I).2 := by
  refine ⟨rfl, ?_⟩
  unfold run_query_http
  dsimp only
  rw [h]

/-- C8 witness: two different concrete documents with a constant server
yield the same processing, and the recorded payload is the document. -/
theorem c8_request_verbatim_witness :
    (run_query_http JVal.jnull (fun _ => []) (fun _ => []) 3 3).1 = JVal.jnull
    ∧ (run_query_http JVal.jnull (fun _ => []) (fun _ => []) 3 3).2
        = (run_query_http (JVal.jnum 1) (fun _ => []) (fun _ => []) 3 3).2 :=
  c8_request_verbatim JVal.jnull (JVal.jnum 1) (fun _ => []) (fun _ => []) 3 3 rfl
